import Mathlib

/-
Shallow embedding of `src/main.rs` of rvigo/gitstatus.

Strings from the Rust source are modelled as `List Char`.  The Rust code
indexes and measures strings in bytes; on ASCII text (all inputs considered
here) byte positions coincide with character positions, so character-level
slicing is faithful.  External process results (the `git status` exit code
and stdout lines, the tag / hash query outputs, the stash-file line count)
are inputs of the model, collected in `GitEnv`.  A Rust panic (an
out-of-bounds string slice) is modelled by `Option`: `none` is a panic.
-/

/-- Whitespace predicate of Rust's `char::is_whitespace` (the Unicode
`White_Space` property). -/
def isRustWs (c : Char) : Bool :=
  c.toNat = 0x20 || c.toNat = 0x9 || c.toNat = 0xA || c.toNat = 0xB ||
  c.toNat = 0xC || c.toNat = 0xD || c.toNat = 0x85 || c.toNat = 0xA0 ||
  c.toNat = 0x1680 || (0x2000 ≤ c.toNat && c.toNat ≤ 0x200A) ||
  c.toNat = 0x2028 || c.toNat = 0x2029 || c.toNat = 0x202F ||
  c.toNat = 0x205F || c.toNat = 0x3000

/-- Rust `str::trim`: drop whitespace from both ends. -/
def trim (s : List Char) : List Char :=
  ((s.dropWhile isRustWs).reverse.dropWhile isRustWs).reverse

/-- Rust `str::contains(pat)` for a literal pattern: substring test. -/
def containsSub : List Char → List Char → Bool
  | needle, [] => needle.isEmpty
  | needle, c :: t => needle.isPrefixOf (c :: t) || containsSub needle t

/-- Rust `str::split(sep)` for a non-empty literal separator, with `fuel`
bounding the recursion depth (`fuel = s.length` always suffices). -/
def splitOnFuel (sep : List Char) : Nat → List Char → List (List Char)
  | _, [] => [[]]
  | 0, s => [s]
  | fuel + 1, c :: t =>
    if sep ≠ [] ∧ sep.isPrefixOf (c :: t) then
      [] :: splitOnFuel sep fuel (List.drop sep.length (c :: t))
    else
      match splitOnFuel sep fuel t with
      | [] => [[c]]
      | h :: r => (c :: h) :: r

/-- Rust `str::split(sep)` for a non-empty literal separator: the parts
between the non-overlapping, left-to-right occurrences of `sep`. -/
def splitOnSub (sep s : List Char) : List (List Char) :=
  splitOnFuel sep s.length s

/-- Helper of `splitWs`: `acc` holds the (reversed) token being read. -/
def splitWsGo : List Char → List Char → List (List Char)
  | acc, [] => if acc = [] then [] else [acc.reverse]
  | acc, c :: t =>
    if isRustWs c then
      if acc = [] then splitWsGo [] t else acc.reverse :: splitWsGo [] t
    else splitWsGo (c :: acc) t

/-- Rust `str::split_whitespace`: maximal non-whitespace runs, no empties. -/
def splitWs (s : List Char) : List (List Char) :=
  splitWsGo [] s

/-- Rust `str::trim_start_matches(c)`: strip every leading copy of `c`. -/
def trimStartMatches (c : Char) (s : List Char) : List Char :=
  s.dropWhile (· = c)

/-- Rust `str::trim_end_matches(c)`: strip every trailing copy of `c`. -/
def trimEndMatches (c : Char) (s : List Char) : List Char :=
  (s.reverse.dropWhile (· = c)).reverse

/-- Numeric value of an ASCII digit character. -/
def digitVal (c : Char) : Nat := c.toNat - 48

/-- Value of a list of ASCII digit characters read in base 10. -/
def natFromDigits (ds : List Char) : Nat :=
  ds.foldl (fun n c => 10 * n + digitVal c) 0

/-- Rust `str::parse::<i32>`: an optional sign, then one or more ASCII
digits, with the value required to fit in `i32`; anything else is an
error (`none`). -/
def parseI32 (s : List Char) : Option Int :=
  let core := fun (sign : Int) (ds : List Char) =>
    if ds ≠ [] ∧ ds.all Char.isDigit then
      let v : Int := sign * (natFromDigits ds : Nat)
      if -(2 ^ 31) ≤ v ∧ v ≤ 2 ^ 31 - 1 then some v else none
    else none
  match s with
  | '+' :: t => core 1 t
  | '-' :: t => core (-1) t
  | t => core 1 t

/-- Decimal digit character, as produced by Rust's integer `Display`. -/
def digitChar10 (d : Nat) : Char :=
  if d = 0 then '0' else if d = 1 then '1' else if d = 2 then '2'
  else if d = 3 then '3' else if d = 4 then '4' else if d = 5 then '5'
  else if d = 6 then '6' else if d = 7 then '7' else if d = 8 then '8'
  else '9'

/-- Helper of `natToChars`; `fuel ≥ n` makes the fallback unreachable. -/
def natToCharsGo : Nat → Nat → List Char → List Char
  | 0, n, acc => digitChar10 (n % 10) :: acc
  | fuel + 1, n, acc =>
    if n < 10 then digitChar10 (n % 10) :: acc
    else natToCharsGo fuel (n / 10) (digitChar10 (n % 10) :: acc)

/-- Decimal rendering of a `usize` value, as Rust's `Display` prints it. -/
def natToChars (n : Nat) : List Char :=
  natToCharsGo n n []

/-- Decimal rendering of an `i32` value, as Rust's `Display` prints it. -/
def intToChars (i : Int) : List Char :=
  if i < 0 then '-' :: natToChars i.natAbs else natToChars i.toNat

/-- Rust `[&str]::join(sep)` / the spacing of the final `format!`. -/
def joinSep (sep : List Char) : List (List Char) → List Char
  | [] => []
  | [f] => f
  | f :: g :: r => f ++ sep ++ joinSep sep (g :: r)

/-- Rust `str::split(c)` for a single-character separator, keeping empty
fields (used to state the shape of the output line). -/
def splitChar (sep : Char) : List Char → List (List Char)
  | [] => [[]]
  | c :: t =>
    if c = sep then [] :: splitChar sep t
    else
      match splitChar sep t with
      | [] => [[c]]
      | h :: r => (c :: h) :: r

/-- Rust type alias `StatusLine = (char, char, String)`: index status code,
worktree status code, payload (the line from its third character on). -/
abbrev StatusLine := Char × Char × List Char

/-- Results of the external collaborators, per spec section 6: the exit code
of `git status --porcelain --branch` (`none` models a process killed without
an exit code), its stdout split into lines, the stdout of the tag query and
of the hash query, and the line count of the stash log file. -/
structure GitEnv where
  statusCode : Option Int
  statusLines : List (List Char)
  tagsOut : List Char
  hashOut : List Char
  stashCount : Nat
deriving DecidableEq

/-- Mutable state of `main`'s classification loop: the five category
buckets, the divergence counters and the branch name. -/
structure RunState where
  untracked : List StatusLine
  staged : List StatusLine
  changed : List StatusLine
  deleted : List StatusLine
  conflicts : List StatusLine
  ahead : Int
  behind : Int
  branch : Option (List Char)
deriving DecidableEq

/-- Initial loop state: empty buckets, `ahead = behind = 0`, no branch. -/
def initState : RunState :=
  { untracked := [], staged := [], changed := [], deleted := [], conflicts := []
    ahead := 0, behind := 0, branch := none }

/-- Pattern of the regex `Initial commit on` (a plain substring match). -/
def initialCommitMarker : List Char := "Initial commit on".toList

/-- Pattern of the regex `No commits yet on` (a plain substring match). -/
def noCommitsMarker : List Char := "No commits yet on".toList

/-- Pattern of the regex `no branch` (a plain substring match). -/
def noBranchMarker : List Char := "no branch".toList

/-- The upstream separator literal `...`. -/
def dots : List Char := "...".toList

/-- The divergence-segment separator literal `, `. -/
def commaSpace : List Char := ", ".toList

/-- Rust slice `&s[n..]`: `none` models the panic when `n` is past the end
of `s` (byte index out of bounds; char index on the ASCII inputs here). -/
def sliceFrom (n : Nat) (s : List Char) : Option (List Char) :=
  if n ≤ s.length then some (s.drop n) else none

/-- Embedding of `get_tagname_or_hash` over the raw stdout of the tag query
and of the hash query: the whitespace-split tag list decides the label; with
no tags, the trimmed hash; with an empty hash, no label. -/
def get_tagname_or_hash (tagsOut hashOut : List Char) : Option (List Char) :=
  match splitWs tagsOut with
  | t :: ts => some (t ++ if ts = [] then [] else ['+'])
  | [] =>
    let hash := trim hashOut
    if hash = [] then none else some hash

/-- The `for div in divergence.split(", ")` loop of `main` (lines 76-82):
each segment containing `ahead` (resp. `behind`) is sliced past the length
of `ahead ` (resp. `behind `) and the trimmed remainder parsed, a parse
failure counting 0.  `none` is the Rust panic when the slice start exceeds
the segment length. -/
def applyDivs : List (List Char) → RunState → Option RunState
  | [], st => some st
  | div :: rest, st =>
    if containsSub ("ahead".toList) div then
      match sliceFrom 6 div with
      | none => none
      | some s => applyDivs rest { st with ahead := (parseI32 (trim s)).getD 0 }
    else if containsSub ("behind".toList) div then
      match sliceFrom 7 div with
      | none => none
      | some s => applyDivs rest { st with behind := (parseI32 (trim s)).getD 0 }
    else applyDivs rest st

/-- The `('#', '#', ref git_ref)` arm of `main`'s match (lines 51-84):
marker phrases first, then the detached-HEAD delegation, then the
no-upstream case, else the split on `...` with optional divergence
annotation. `gitRef` is the header payload (the line from its third
character on). -/
def interpretHeader (env : GitEnv) (gitRef : List Char) (st : RunState) :
    Option RunState :=
  if containsSub initialCommitMarker gitRef || containsSub noCommitsMarker gitRef then
    some { st with branch := some (((splitWs gitRef).getLast?).getD []) }
  else if containsSub noBranchMarker gitRef then
    some { st with branch := get_tagname_or_hash env.tagsOut env.hashOut }
  else if (splitOnSub dots (trim gitRef)).length = 1 then
    some { st with branch := some (trim gitRef) }
  else
    let parts := splitOnSub dots (trim gitRef)
    let rest := (parts.drop 1).headD []
    let st1 := { st with branch := some (parts.headD []) }
    if 1 < (splitWs rest).length then
      applyDivs
        (splitOnSub commaSpace
          (trimEndMatches ']' (trimStartMatches '['
            (joinSep [' '] ((splitWs rest).drop 1)))))
        st1
    else some st1

/-- One iteration of `main`'s `for line in stdout.lines()` loop (lines
39-93): trim the line, skip it under 3 characters, read the two status
codes, and route the entry by the match's arm order. -/
def stepLine (env : GitEnv) (st : RunState) (rawLine : List Char) :
    Option RunState :=
  match trim rawLine with
  | c0 :: c1 :: rest =>
    if (c0 :: c1 :: rest).length < 3 then some st
    else if c0 = '#' ∧ c1 = '#' then interpretHeader env rest st
    else if c0 = '?' ∧ c1 = '?' then
      some { st with untracked := st.untracked ++ [(c0, c1, rest)] }
    else if c1 = 'M' then
      some { st with changed := st.changed ++ [(c0, c1, rest)] }
    else if c1 = 'D' then
      some { st with deleted := st.deleted ++ [(c0, c1, rest)] }
    else if c0 = 'U' then
      some { st with conflicts := st.conflicts ++ [(c0, c1, rest)] }
    else if c0 ≠ ' ' then
      some { st with staged := st.staged ++ [(c0, c1, rest)] }
    else some st
  | _ => some st

/-- The whole classification loop over the status stdout lines. -/
def processLines (env : GitEnv) : Option RunState :=
  env.statusLines.foldlM (stepLine env) initState

/-- Embedding of `is_clean` (lines 116-133): 1 when all five buckets are
empty, else 0 (an `i32` in the source). -/
def is_clean (changed deleted staged conflicts untracked : List StatusLine) :
    Int :=
  if changed = [] ∧ deleted = [] ∧ staged = [] ∧ conflicts = [] ∧ untracked = []
  then 1 else 0

/-- The `format!` of `main` (lines 98-110): the ten fields joined by single
spaces, in the source's order. -/
def buildOutput (env : GitEnv) (st : RunState) : List Char :=
  joinSep [' ']
    [ st.branch.getD []
    , intToChars st.ahead
    , intToChars st.behind
    , natToChars st.staged.length
    , natToChars st.conflicts.length
    , natToChars st.changed.length
    , natToChars st.untracked.length
    , natToChars env.stashCount
    , intToChars (is_clean st.changed st.deleted st.staged st.conflicts st.untracked)
    , natToChars st.deleted.length ]

/-- Observable outcome of one run: the early `std::process::exit(0)` (which
prints nothing), a Rust panic, or the `print!`ed line (with its exit code;
no trailing newline is ever written). -/
inductive RunResult where
  | earlyExit (code : Nat)
  | panicked
  | printed (out : List Char) (code : Nat)
deriving DecidableEq

/-- Embedding of `main` (lines 13-114): exit 0 silently unless the status
query's exit code (1 when absent) is 0; else classify every line and print
the summary, returning exit code 0. -/
def runMain (env : GitEnv) : RunResult :=
  if env.statusCode.getD 1 ≠ 0 then .earlyExit 0
  else
    match processLines env with
    | none => .panicked
    | some st => .printed (buildOutput env st) 0

/-- An arbitrary fixed environment for concrete evaluations. -/
def defaultEnv : GitEnv :=
  { statusCode := some 0, statusLines := [], tagsOut := [], hashOut := []
    stashCount := 0 }

/-- Environment whose status query emitted the header
`## main...origin/main [ahead]` and exited 0. -/
def envAheadBare : GitEnv :=
  { defaultEnv with statusLines := ["## main...origin/main [ahead]".toList] }

/-- Environment whose status query exited with code 128. -/
def env128 : GitEnv :=
  { defaultEnv with statusCode := some 128 }

/-- Environment whose status query died without an exit code. -/
def envKilled : GitEnv :=
  { defaultEnv with statusCode := none, statusLines := [" M x".toList] }

/-- Environment whose status query listed one untracked path. -/
def envUntracked : GitEnv :=
  { defaultEnv with statusLines := ["?? foo".toList] }

/-- Sum of the five bucket sizes, to measure insertions. -/
def totalBuckets (st : RunState) : Nat :=
  st.untracked.length + st.staged.length + st.changed.length +
  st.deleted.length + st.conflicts.length

/-- A trimmed line whose two leading characters are both `#`. -/
def isHeaderLine : List Char → Bool
  | c0 :: c1 :: _ => decide (c0 = '#' ∧ c1 = '#')
  | _ => false

lemma applyDivs_fields (divs : List (List Char)) :
    ∀ s s' : RunState, applyDivs divs s = some s' →
      s'.branch = s.branch ∧ s'.untracked = s.untracked ∧ s'.staged = s.staged ∧
      s'.changed = s.changed ∧ s'.deleted = s.deleted ∧
      s'.conflicts = s.conflicts := by
  induction divs with
  | nil =>
    intro s s' h
    simp only [applyDivs, Option.some.injEq] at h
    subst h
    exact ⟨rfl, rfl, rfl, rfl, rfl, rfl⟩
  | cons d rest ih =>
    intro s s' h
    simp only [applyDivs] at h
    split at h
    · split at h
      · exact Option.noConfusion h
      · have hf := ih _ _ h
        exact hf
    · split at h
      · split at h
        · exact Option.noConfusion h
        · have hf := ih _ _ h
          exact hf
      · exact ih _ _ h

lemma interpretHeader_buckets (env : GitEnv) (gitRef : List Char)
    (st st' : RunState) (h : interpretHeader env gitRef st = some st') :
    st'.untracked = st.untracked ∧ st'.staged = st.staged ∧
    st'.changed = st.changed ∧ st'.deleted = st.deleted ∧
    st'.conflicts = st.conflicts := by
  simp only [interpretHeader] at h
  split at h
  · injection h with h; subst h; exact ⟨rfl, rfl, rfl, rfl, rfl⟩
  · split at h
    · injection h with h; subst h; exact ⟨rfl, rfl, rfl, rfl, rfl⟩
    · split at h
      · injection h with h; subst h; exact ⟨rfl, rfl, rfl, rfl, rfl⟩
      · split at h
        · have hf := applyDivs_fields _ _ _ h
          exact ⟨hf.2.1, hf.2.2.1, hf.2.2.2.1, hf.2.2.2.2.1, hf.2.2.2.2.2⟩
        · injection h with h; subst h; exact ⟨rfl, rfl, rfl, rfl, rfl⟩

lemma digitChar10_range (d : Nat) :
    48 ≤ (digitChar10 d).toNat ∧ (digitChar10 d).toNat ≤ 57 := by
  unfold digitChar10
  split_ifs <;> exact ⟨by decide, by decide⟩

lemma natToCharsGo_digits :
    ∀ fuel n acc, (∀ c ∈ acc, 48 ≤ c.toNat ∧ c.toNat ≤ 57) →
      ∀ c ∈ natToCharsGo fuel n acc, 48 ≤ c.toNat ∧ c.toNat ≤ 57 := by
  intro fuel
  induction fuel with
  | zero =>
    intro n acc hacc c hc
    simp only [natToCharsGo] at hc
    rcases List.mem_cons.mp hc with rfl | hmem
    · exact digitChar10_range _
    · exact hacc _ hmem
  | succ fuel ih =>
    intro n acc hacc c hc
    simp only [natToCharsGo] at hc
    split at hc
    · rcases List.mem_cons.mp hc with rfl | hmem
      · exact digitChar10_range _
      · exact hacc _ hmem
    · refine ih _ _ ?_ _ hc
      intro c' hc'
      rcases List.mem_cons.mp hc' with rfl | hm
      · exact digitChar10_range _
      · exact hacc _ hm

lemma natToChars_digits (n : Nat) :
    ∀ c ∈ natToChars n, 48 ≤ c.toNat ∧ c.toNat ≤ 57 :=
  natToCharsGo_digits n n [] (by simp)

lemma natToChars_no_sp (n : Nat) : ' ' ∉ natToChars n ∧ '\n' ∉ natToChars n := by
  constructor <;> intro hmem
  · have h := (natToChars_digits n _ hmem).1
    have h32 : (' ' : Char).toNat = 32 := rfl
    omega
  · have h := (natToChars_digits n _ hmem).1
    have h10 : ('\n' : Char).toNat = 10 := rfl
    omega

lemma intToChars_no_sp (i : Int) : ' ' ∉ intToChars i ∧ '\n' ∉ intToChars i := by
  unfold intToChars
  split
  · constructor <;> intro hmem <;> rcases List.mem_cons.mp hmem with h' | h'
    · exact absurd h' (by decide)
    · exact (natToChars_no_sp _).1 h'
    · exact absurd h' (by decide)
    · exact (natToChars_no_sp _).2 h'
  · exact natToChars_no_sp _

lemma splitChar_no_sep (sep : Char) (f : List Char) (hf : sep ∉ f) :
    splitChar sep f = [f] := by
  induction f with
  | nil => rfl
  | cons c t ih =>
    have hc : ¬ c = sep := fun h => hf (h ▸ List.mem_cons_self c t)
    have ht : sep ∉ t := fun h => hf (List.mem_cons_of_mem _ h)
    simp only [splitChar, if_neg hc, ih ht]

lemma splitChar_append (sep : Char) (f r : List Char) (hf : sep ∉ f) :
    splitChar sep (f ++ sep :: r) = f :: splitChar sep r := by
  induction f with
  | nil => simp [splitChar]
  | cons c t ih =>
    have hc : ¬ c = sep := fun h => hf (h ▸ List.mem_cons_self c t)
    have ht : sep ∉ t := fun h => hf (List.mem_cons_of_mem _ h)
    rw [List.cons_append, splitChar, if_neg hc, ih ht]

lemma splitChar_joinSep (sep : Char) :
    ∀ fs : List (List Char), fs ≠ [] → (∀ f ∈ fs, sep ∉ f) →
      splitChar sep (joinSep [sep] fs) = fs := by
  intro fs
  induction fs with
  | nil => intro h; exact absurd rfl h
  | cons f rest ih =>
    intro _ hall
    cases rest with
    | nil => exact splitChar_no_sep sep f (hall f (by simp))
    | cons g r =>
      have hj : joinSep [sep] (f :: g :: r) = f ++ sep :: joinSep [sep] (g :: r) := by
        simp [joinSep]
      rw [hj, splitChar_append sep f _ (hall f (by simp)),
        ih (by simp) (fun x hx => hall x (List.mem_cons_of_mem _ hx))]

lemma mem_joinSep (sep : List Char) :
    ∀ fs (c : Char), c ∈ joinSep sep fs → c ∈ sep ∨ ∃ f ∈ fs, c ∈ f := by
  intro fs
  induction fs with
  | nil => intro c hc; simp [joinSep] at hc
  | cons f rest ih =>
    intro c hc
    cases rest with
    | nil => exact Or.inr ⟨f, by simp, hc⟩
    | cons g r =>
      simp only [joinSep] at hc
      rcases List.mem_append.mp hc with h1 | h2
      · rcases List.mem_append.mp h1 with h1a | h1b
        · exact Or.inr ⟨f, by simp, h1a⟩
        · exact Or.inl h1b
      · rcases ih c h2 with h | ⟨f', hf', hcf'⟩
        · exact Or.inl h
        · exact Or.inr ⟨f', List.mem_cons_of_mem _ hf', hcf'⟩

/-- C1 counterexample: the raw porcelain line ` M foo` (index code space,
worktree code `M`) is trimmed by the loop before the codes are read, so it
is classified from the shifted pair `('M', ' ')` and lands in the staged
bucket with an empty changed bucket — not in changed as the claim states. -/
theorem c1_raw_space_m_line_lands_in_staged :
    stepLine defaultEnv initState " M foo".toList =
      some { initState with staged := [('M', ' ', "foo".toList)] } := by decide

/-- C1 (amended): for every status line whose trimmed form has `M` as its
second character (and at least three characters), the entry is appended to
the changed bucket, regardless of the first (index) character. -/
theorem c1_trimmed_worktree_m_is_changed (env : GitEnv) (st : RunState)
    (line : List Char) (c0 : Char) (rest : List Char)
    (h : trim line = c0 :: 'M' :: rest) (hr : rest ≠ []) :
    stepLine env st line =
      some { st with changed := st.changed ++ [(c0, 'M', rest)] } := by
  have h3 : ¬ (c0 :: 'M' :: rest).length < 3 := by
    rcases rest with _ | ⟨x, t⟩
    · exact absurd rfl hr
    · simp
  simp only [stepLine, h]
  rw [if_neg h3,
    if_neg (show ¬(c0 = '#' ∧ 'M' = '#') from fun hx => absurd hx.2 (by decide)),
    if_neg (show ¬(c0 = '?' ∧ 'M' = '?') from fun hx => absurd hx.2 (by decide))]
  simp

/-- C1 witness: the trimmed line `RM x` has worktree code `M` and index
code `R`, and is appended to the changed bucket. -/
theorem c1_witness :
    stepLine defaultEnv initState "RM x".toList =
      some { initState with changed := [('R', 'M', [' ', 'x'])] } := by
  have h := c1_trimmed_worktree_m_is_changed defaultEnv initState
    ("RM x".toList) 'R' [' ', 'x'] (by decide) (by decide)
  simpa using h

/-- C2 counterexample: the line `UM x` has index code `U` but worktree code
`M`; the match's worktree-`M` arm precedes the index-`U` arm, so the entry
lands in changed with an empty conflicted bucket — not in conflicted as the
claim states. -/
theorem c2_um_line_lands_in_changed :
    stepLine defaultEnv initState "UM x".toList =
      some { initState with changed := [('U', 'M', [' ', 'x'])] } := by decide

/-- C2 (amended): for every status line whose trimmed form starts with
index code `U` and whose worktree code is neither `M` nor `D`, the entry is
appended to the conflicted bucket. -/
theorem c2_index_u_conflicted_unless_worktree_md (env : GitEnv)
    (st : RunState) (line : List Char) (w : Char) (rest : List Char)
    (h : trim line = 'U' :: w :: rest) (hw1 : w ≠ 'M') (hw2 : w ≠ 'D')
    (hr : rest ≠ []) :
    stepLine env st line =
      some { st with conflicts := st.conflicts ++ [('U', w, rest)] } := by
  have h3 : ¬ ('U' :: w :: rest).length < 3 := by
    rcases rest with _ | ⟨x, t⟩
    · exact absurd rfl hr
    · simp
  simp only [stepLine, h]
  rw [if_neg h3,
    if_neg (show ¬('U' = '#' ∧ w = '#') from fun hx => absurd hx.1 (by decide)),
    if_neg (show ¬('U' = '?' ∧ w = '?') from fun hx => absurd hx.1 (by decide)),
    if_neg hw1, if_neg hw2]
  simp

/-- C2 witness: the line `UU x` (index `U`, worktree `U`) is appended to
the conflicted bucket. -/
theorem c2_witness :
    stepLine defaultEnv initState "UU x".toList =
      some { initState with conflicts := [('U', 'U', [' ', 'x'])] } := by
  have h := c2_index_u_conflicted_unless_worktree_md defaultEnv initState
    ("UU x".toList) 'U' [' ', 'x'] (by decide) (by decide) (by decide)
  simpa using h

/-- C3: on the header `## main...origin/main [ahead]`, whose divergence
segment `ahead` has no trailing integer, the run panics (the slice
`div["ahead ".len()..]` starts past the end of the five-byte segment)
instead of defaulting the ahead count to 0 — the code aborts exactly where
the claim (and spec section 7) promise graceful degradation to 0. -/
theorem c3_bare_ahead_segment_panics :
    runMain envAheadBare = .panicked := by decide

/-- C4: the cleanliness flag computed by `is_clean` is 1 exactly when all
five buckets are empty, and 0 exactly otherwise, for every combination of
bucket contents. -/
theorem c4_clean_flag_iff_all_buckets_empty
    (changed deleted staged conflicts untracked : List StatusLine) :
    (is_clean changed deleted staged conflicts untracked = 1 ↔
      (changed = [] ∧ deleted = [] ∧ staged = [] ∧ conflicts = [] ∧
        untracked = [])) ∧
    (is_clean changed deleted staged conflicts untracked = 0 ↔
      ¬(changed = [] ∧ deleted = [] ∧ staged = [] ∧ conflicts = [] ∧
        untracked = [])) := by
  unfold is_clean
  split
  · rename_i hc
    exact ⟨⟨fun _ => hc, fun _ => rfl⟩,
      ⟨fun h => absurd h (by decide), fun hn => absurd hc hn⟩⟩
  · rename_i hc
    exact ⟨⟨fun h => absurd h (by decide), fun hcc => absurd hcc hc⟩,
      ⟨fun _ => hc, fun _ => rfl⟩⟩

/-- C5: whenever the status query reports a non-zero exit code, `main`
takes the `std::process::exit(0)` path: the run ends with exit code 0 and
nothing is printed (`RunResult.earlyExit` carries no output). -/
theorem c5_nonzero_exit_silent_success (env : GitEnv) (n : Int)
    (h : env.statusCode = some n) (hn : n ≠ 0) :
    runMain env = .earlyExit 0 := by
  unfold runMain
  rw [h, if_pos (show (some n).getD 1 ≠ 0 from hn)]

/-- C5 witness: a status-query exit code of 128 produces the silent
exit-0 outcome. -/
theorem c5_witness : runMain env128 = .earlyExit 0 :=
  c5_nonzero_exit_silent_success _ 128 rfl (by decide)

/-- C7: the detached-HEAD label resolution: a non-empty tag list gives the
first tag, with `+` appended exactly when a second tag is present; an empty
tag list falls back to the trimmed hash; an empty hash gives no label. -/
theorem c7_tag_or_hash_label (tagsOut hashOut : List Char) :
    (∀ t ts, splitWs tagsOut = t :: ts →
      get_tagname_or_hash tagsOut hashOut =
        some (t ++ if ts = [] then [] else ['+'])) ∧
    (splitWs tagsOut = [] → trim hashOut ≠ [] →
      get_tagname_or_hash tagsOut hashOut = some (trim hashOut)) ∧
    (splitWs tagsOut = [] → trim hashOut = [] →
      get_tagname_or_hash tagsOut hashOut = none) := by
  refine ⟨?_, ?_, ?_⟩
  · intro t ts hsp
    simp only [get_tagname_or_hash, hsp]
  · intro hsp hh
    simp only [get_tagname_or_hash, hsp, if_neg hh]
  · intro hsp hh
    simp only [get_tagname_or_hash, hsp, if_pos hh]

/-- C7 witness: two tags `v2.0`, `v1.0` label `v2.0+`; no tags with hash
stdout ` abc1234` label `abc1234`; no tags and a blank hash give no
label. -/
theorem c7_witness :
    get_tagname_or_hash "v2.0\nv1.0\n".toList "".toList =
      some "v2.0+".toList ∧
    get_tagname_or_hash "".toList " abc1234\n".toList =
      some "abc1234".toList ∧
    get_tagname_or_hash "".toList "  ".toList = none := by
  refine ⟨?_, ?_, ?_⟩
  · have h := (c7_tag_or_hash_label "v2.0\nv1.0\n".toList "".toList).1
      ("v2.0".toList) ["v1.0".toList] (by decide)
    simpa using h
  · have h := (c7_tag_or_hash_label "".toList " abc1234\n".toList).2.1
      (by decide) (by decide)
    simpa using h
  · exact (c7_tag_or_hash_label "".toList "  ".toList).2.2 (by decide) (by decide)

/-- C10: when the status query terminates without an exit code (killed by
a signal, modelled as `statusCode = none`), `unwrap_or(1)` makes the check
non-zero and the run ends silently with exit code 0, exactly as in the
not-a-repository case. -/
theorem c10_no_exit_code_silent_success (env : GitEnv)
    (h : env.statusCode = none) : runMain env = .earlyExit 0 := by
  unfold runMain
  rw [h, if_pos (show (none : Option Int).getD 1 ≠ 0 from by decide)]

/-- C10 witness: a concrete environment with no exit code exits 0 without
output. -/
theorem c10_witness : runMain envKilled = .earlyExit 0 :=
  c10_no_exit_code_silent_success _ rfl

/-- C6: for every header payload that matches none of the marker phrases
and splits on `...` into at least two parts, any non-panicking
interpretation sets the branch to the part before the first separator; and
concretely the payload `main...origin/main [ahead 2, behind 1]` yields
branch `main`, ahead 2, behind 1. -/
theorem c6_upstream_split_branch_and_divergence (env : GitEnv)
    (st : RunState) (gitRef b r : List Char) (more : List (List Char))
    (h1 : containsSub initialCommitMarker gitRef = false)
    (h2 : containsSub noCommitsMarker gitRef = false)
    (h3 : containsSub noBranchMarker gitRef = false)
    (h4 : splitOnSub dots (trim gitRef) = b :: r :: more) :
    (∀ st', interpretHeader env gitRef st = some st' → st'.branch = some b) ∧
    interpretHeader defaultEnv
      "main...origin/main [ahead 2, behind 1]".toList initState =
      some { initState with
        branch := some "main".toList, ahead := 2, behind := 1 } := by
  constructor
  · intro st' h
    rw [interpretHeader] at h
    rw [h1, h2, h3, h4] at h
    simp at h
    split at h
    · have hf := (applyDivs_fields _ _ _ h).1
      simpa using hf
    · injection h with h
      subst h
      rfl
  · decide

/-- C6 witness: the concrete payload splits into `main` and
`origin/main [ahead 2, behind 1]`, and its interpretation yields branch
`main`, ahead 2, behind 1. -/
theorem c6_witness :
    splitOnSub dots (trim "main...origin/main [ahead 2, behind 1]".toList) =
      ["main".toList, "origin/main [ahead 2, behind 1]".toList] ∧
    interpretHeader defaultEnv
      "main...origin/main [ahead 2, behind 1]".toList initState =
      some { initState with
        branch := some "main".toList, ahead := 2, behind := 1 } := by
  refine ⟨by decide, ?_⟩
  exact (c6_upstream_split_branch_and_divergence defaultEnv initState
    ("main...origin/main [ahead 2, behind 1]".toList) ("main".toList)
    ("origin/main [ahead 2, behind 1]".toList) [] (by decide) (by decide)
    (by decide) (by decide)).2

/-- C8: every run that prints does so through `buildOutput`; the printed
line is the ten fields in the fixed order branch, ahead, behind,
stagedCount, conflictCount, changedCount, untrackedCount, stashCount,
cleanFlag, deletedCount joined by single spaces (so splitting on the space
separator returns exactly those ten fields, the branch being space-free),
it contains no newline at all, and a missing branch name yields an empty
first field. -/
theorem c8_output_ten_fields (env : GitEnv) (st : RunState)
    (hb : ∀ bch, st.branch = some bch → ' ' ∉ bch ∧ '\n' ∉ bch)
    (hc : env.statusCode = some 0) (hp : processLines env = some st) :
    runMain env = .printed (buildOutput env st) 0 ∧
    splitChar ' ' (buildOutput env st) =
      [ st.branch.getD [], intToChars st.ahead, intToChars st.behind,
        natToChars st.staged.length, natToChars st.conflicts.length,
        natToChars st.changed.length, natToChars st.untracked.length,
        natToChars env.stashCount,
        intToChars (is_clean st.changed st.deleted st.staged st.conflicts
          st.untracked),
        natToChars st.deleted.length ] ∧
    '\n' ∉ buildOutput env st ∧
    (st.branch = none → (splitChar ' ' (buildOutput env st)).headD ['#'] = []) := by
  have hbr : ' ' ∉ st.branch.getD [] ∧ '\n' ∉ st.branch.getD [] := by
    cases hbo : st.branch with
    | none => simp
    | some bch => simpa using hb bch hbo
  have hfs : ∀ f ∈
      [ st.branch.getD [], intToChars st.ahead, intToChars st.behind,
        natToChars st.staged.length, natToChars st.conflicts.length,
        natToChars st.changed.length, natToChars st.untracked.length,
        natToChars env.stashCount,
        intToChars (is_clean st.changed st.deleted st.staged st.conflicts
          st.untracked),
        natToChars st.deleted.length ], ' ' ∉ f ∧ '\n' ∉ f := by
    intro f hf
    simp only [List.mem_cons, List.not_mem_nil, or_false] at hf
    rcases hf with rfl | rfl | rfl | rfl | rfl | rfl | rfl | rfl | rfl | rfl
    · exact hbr
    · exact intToChars_no_sp _
    · exact intToChars_no_sp _
    · exact natToChars_no_sp _
    · exact natToChars_no_sp _
    · exact natToChars_no_sp _
    · exact natToChars_no_sp _
    · exact natToChars_no_sp _
    · exact intToChars_no_sp _
    · exact natToChars_no_sp _
  have hsplit : splitChar ' ' (buildOutput env st) =
      [ st.branch.getD [], intToChars st.ahead, intToChars st.behind,
        natToChars st.staged.length, natToChars st.conflicts.length,
        natToChars st.changed.length, natToChars st.untracked.length,
        natToChars env.stashCount,
        intToChars (is_clean st.changed st.deleted st.staged st.conflicts
          st.untracked),
        natToChars st.deleted.length ] := by
    unfold buildOutput
    exact splitChar_joinSep ' ' _ (by simp) (fun f hf => (hfs f hf).1)
  refine ⟨?_, hsplit, ?_, ?_⟩
  · unfold runMain
    rw [hc, if_neg (show ¬((some (0 : Int)).getD 1 ≠ 0) from fun hne => hne rfl),
      hp]
  · intro hnl
    unfold buildOutput at hnl
    rcases mem_joinSep [' '] _ '\n' hnl with hsep | ⟨f, hf, hcf⟩
    · exact absurd hsep (by decide)
    · exact (hfs f hf).2 hcf
  · intro hbn
    rw [hsplit]
    simp [hbn]

/-- C8 witness: one untracked path and no branch header print the line
` 0 0 0 0 0 1 0 0 0` (empty first field, ten fields, no newline). -/
theorem c8_witness :
    runMain envUntracked = .printed " 0 0 0 0 0 1 0 0 0".toList 0 ∧
    (splitChar ' '
        (buildOutput envUntracked
          { initState with untracked := [('?', '?', " foo".toList)] })).headD
      ['#'] = [] := by
  have h := c8_output_ten_fields envUntracked
    { initState with untracked := [('?', '?', " foo".toList)] }
    (fun bch hb => Option.noConfusion hb) rfl (by decide)
  exact ⟨h.1.trans (by decide), h.2.2.2 rfl⟩

/-- C9: trimmed lines shorter than 3 characters leave the state unchanged
(they are never bucketed); every non-panicking step inserts into at most
one bucket (the total bucket size grows by at most one); and a header line
(both leading characters `#`) never changes any bucket. -/
theorem c9_line_classified_at_most_once (env : GitEnv) (st : RunState)
    (line : List Char) :
    ((trim line).length < 3 → stepLine env st line = some st) ∧
    (∀ st', stepLine env st line = some st' →
      totalBuckets st' ≤ totalBuckets st + 1 ∧
      (isHeaderLine (trim line) = true →
        st'.untracked = st.untracked ∧ st'.staged = st.staged ∧
        st'.changed = st.changed ∧ st'.deleted = st.deleted ∧
        st'.conflicts = st.conflicts)) := by
  rcases htr : trim line with _ | ⟨c0, _ | ⟨c1, rest⟩⟩
  · refine ⟨fun _ => by simp [stepLine, htr], fun st' h => ?_⟩
    simp only [stepLine, htr, Option.some.injEq] at h
    subst h
    exact ⟨Nat.le_add_right _ _, fun _ => ⟨rfl, rfl, rfl, rfl, rfl⟩⟩
  · refine ⟨fun _ => by simp [stepLine, htr], fun st' h => ?_⟩
    simp only [stepLine, htr, Option.some.injEq] at h
    subst h
    exact ⟨Nat.le_add_right _ _, fun _ => ⟨rfl, rfl, rfl, rfl, rfl⟩⟩
  · constructor
    · intro hlen
      simp only [stepLine, htr]
      rw [if_pos hlen]
    · intro st' h
      simp only [stepLine, htr] at h
      by_cases hl3 : (c0 :: c1 :: rest).length < 3
      · rw [if_pos hl3] at h
        injection h with h
        subst h
        exact ⟨Nat.le_add_right _ _, fun _ => ⟨rfl, rfl, rfl, rfl, rfl⟩⟩
      · rw [if_neg hl3] at h
        by_cases hhd : c0 = '#' ∧ c1 = '#'
        · rw [if_pos hhd] at h
          have hbk := interpretHeader_buckets _ _ _ _ h
          refine ⟨?_, fun _ => hbk⟩
          unfold totalBuckets
          rw [hbk.1, hbk.2.1, hbk.2.2.1, hbk.2.2.2.1, hbk.2.2.2.2]
          exact Nat.le_add_right _ _
        · rw [if_neg hhd] at h
          have hnh : ¬ isHeaderLine (c0 :: c1 :: rest) = true := by
            simp only [isHeaderLine, decide_eq_true_eq]
            exact hhd
          by_cases h2 : c0 = '?' ∧ c1 = '?'
          · rw [if_pos h2] at h
            injection h with h
            subst h
            refine ⟨?_, fun hh => absurd hh hnh⟩
            simp only [totalBuckets, List.length_append, List.length_cons,
              List.length_nil]
            omega
          · rw [if_neg h2] at h
            by_cases h3 : c1 = 'M'
            · rw [if_pos h3] at h
              injection h with h
              subst h
              refine ⟨?_, fun hh => absurd hh hnh⟩
              simp only [totalBuckets, List.length_append, List.length_cons,
                List.length_nil]
              omega
            · rw [if_neg h3] at h
              by_cases h4 : c1 = 'D'
              · rw [if_pos h4] at h
                injection h with h
                subst h
                refine ⟨?_, fun hh => absurd hh hnh⟩
                simp only [totalBuckets, List.length_append, List.length_cons,
                  List.length_nil]
                omega
              · rw [if_neg h4] at h
                by_cases h5 : c0 = 'U'
                · rw [if_pos h5] at h
                  injection h with h
                  subst h
                  refine ⟨?_, fun hh => absurd hh hnh⟩
                  simp only [totalBuckets, List.length_append, List.length_cons,
                    List.length_nil]
                  omega
                · rw [if_neg h5] at h
                  by_cases h6 : c0 ≠ ' '
                  · rw [if_pos h6] at h
                    injection h with h
                    subst h
                    refine ⟨?_, fun hh => absurd hh hnh⟩
                    simp only [totalBuckets, List.length_append,
                      List.length_cons, List.length_nil]
                    omega
                  · rw [if_neg h6] at h
                    injection h with h
                    subst h
                    exact ⟨Nat.le_add_right _ _,
                      fun _ => ⟨rfl, rfl, rfl, rfl, rfl⟩⟩

/-- C9 witness: a two-character line leaves the state unchanged; the line
`?? f` grows the total bucket size by at most one; the header `## x` leaves
the untracked bucket untouched. -/
theorem c9_witness :
    stepLine defaultEnv initState ['a', 'b'] = some initState ∧
    totalBuckets { initState with untracked := [('?', '?', [' ', 'f'])] } ≤
      totalBuckets initState + 1 ∧
    ({ initState with branch := some ['x'] } : RunState).untracked =
      initState.untracked := by
  refine ⟨(c9_line_classified_at_most_once defaultEnv initState
    ['a', 'b']).1 (by decide), ?_, ?_⟩
  · exact ((c9_line_classified_at_most_once defaultEnv initState
      ("?? f".toList)).2 _ (by decide)).1
  · exact (((c9_line_classified_at_most_once defaultEnv initState
      ("## x".toList)).2 _ (by decide)).2 (by decide)).1
